import Mathlib

/-!
Verification of the suitecloudbackup extension against its specification.

The development shallowly embeds the relevant TypeScript sources:

* `src/backupManager.ts` (class `BackupManager`): `createBackup`,
  `restoreFile`, `compareFiles`, `getOriginalFilePath`, `listBackups`,
  `findBackupFiles`;
* `src/extension.ts`: the `suitecloudbackup.uploadFile` command flow with its
  catch-handler emergency restore and authentication-retry branches;
* `src/suiteCloudManager.ts` (class `SuiteCloudManager`): `uploadFile`,
  `importFile`, `convertToSuiteCloudPath`, and the `initialize` /
  `fetchAccountInfo` stdout parsing.

Modelling conventions, fixed once here:

* A filesystem path is a list of segments (`FPath`); the flat filesystem used
  by the single-file operations is a function `FPath → Option Content`.
  Directory creation (`ensureDirectoryExists`) always succeeds and is not
  tracked.  POSIX separators are assumed; the Windows drive-letter stripping
  in `getRelativePath` and the backslash branch of `path.relative` are outside
  the model.  `path.relative root p` is modelled for the case that `p` lies
  under `root` (segment-wise prefix); the `..`-climbing form for outside
  paths is not modelled, and theorems put themselves in the covered case.
* File contents are `Content`: either plain text or a parsed metadata object.
  `JSON.stringify` of the metadata record and `JSON.parse` of a sidecar are
  modelled by the `Content.meta` constructor; a `Content.text` sidecar plays
  the role of an unparseable sidecar (`JSON.parse` throwing).
* Wall-clock behaviour of `Promise.race` against `setTimeout(timeoutMs)` is
  modelled by an environment giving each read/write a duration in
  milliseconds; the timeout wins exactly when the duration strictly exceeds
  the deadline.
* External processes (the suitecloud CLI) and user dialog answers are oracle
  parameters of the embedded command flow.
-/

/-- Path segment. -/
abbrev Seg := String

/-- A filesystem path, as a list of segments. -/
abbrev FPath := List Seg

/-- Remote-account descriptor attached to backups (interface `AccountInfo`
in `suiteCloudManager.ts`). -/
structure AccountInfo where
  name : String
  id : String
  url : String
deriving DecidableEq, Repr

/-- Backup source tag: the two-valued literal union type of local and
account. -/
inductive Source where
  | localSrc
  | accountSrc
deriving DecidableEq, Repr

/-- The string stored for a `Source` in paths and metadata. -/
def srcName : Source → String
  | .localSrc => "local"
  | .accountSrc => "account"

/-- The metadata record written by `createBackup` (backupManager.ts 417-424):
originalFile, timestamp, source, authId, relativePath, accountInfo. -/
structure Metadata where
  originalFile : FPath
  timestamp : String
  source : Source
  authId : String
  relativePath : FPath
  accountInfo : AccountInfo
deriving DecidableEq, Repr

/-- File contents: plain text, or a metadata sidecar (the serialized JSON
object, held in parsed form). -/
inductive Content where
  | text (s : String)
  | meta (m : Metadata)
deriving DecidableEq, Repr

/-- Flat filesystem: maps an absolute path to the contents of the file
there, `none` when no file exists at that path. -/
def FS : Type := FPath → Option Content

/-- Overwrite (or create) the file at `p`, as `fs.writeFile` does. -/
def FS.write (fs : FS) (p : FPath) (c : Content) : FS :=
  fun q => if q = p then some c else fs q

/-- Boolean segment-wise prefix test on paths. -/
def isPre : FPath → FPath → Bool
  | [], _ => true
  | _ :: _, [] => false
  | a :: as, b :: bs => a = b && isPre as bs

/-- Boolean contiguous-subsequence test, used to model the JavaScript
`String.prototype.includes` on the character lists of strings. -/
def containsSeq {α : Type} [DecidableEq α] (l pat : List α) : Bool :=
  l.tails.any (fun t => pat.isPrefixOf t)

/-- JavaScript `includes` on strings. -/
def strContains (s pat : String) : Bool := containsSeq s.data pat.data

/-- JavaScript `endsWith` on strings. -/
def strEndsWith (s suf : String) : Bool := suf.data.isSuffixOf s.data

/-- JavaScript `startsWith` on strings. -/
def strStartsWith (s pre : String) : Bool := pre.data.isPrefixOf s.data

/-- Drop the first `n` characters of a string (JavaScript `substring(n)`). -/
def strDropL (s : String) (n : Nat) : String := String.mk (s.data.drop n)

/-- JavaScript `trim`: strip whitespace at both ends. -/
def jsTrim (s : String) : String :=
  String.mk (((s.data.dropWhile Char.isWhitespace).reverse.dropWhile
    Char.isWhitespace).reverse)

/-- Fuel-driven first-occurrence split step: the text before the first
occurrence of `pat` and the text after it. -/
def findSplit (pat : List Char) : List Char → Option (List Char × List Char)
  | [] => none
  | c :: t =>
    if pat.isPrefixOf (c :: t) then some ([], (c :: t).drop pat.length)
    else
      match findSplit pat t with
      | some (pre, post) => some (c :: pre, post)
      | none => none

/-- JavaScript `String.prototype.split` with a non-empty separator, on
character lists, driven by fuel (the input length bounds the number of
splits). -/
def splitOnAuxL (pat : List Char) : Nat → List Char → List (List Char)
  | 0, l => [l]
  | fuel + 1, l =>
    match findSplit pat l with
    | none => [l]
    | some (pre, post) => pre :: splitOnAuxL pat fuel post

/-- JavaScript `split` on strings (non-empty separator). -/
def splitOnStr (s sep : String) : List String :=
  (splitOnAuxL sep.data (s.data.length + 1) s.data).map (fun cs => String.mk cs)

/-- Join a path into the string form the code manipulates. -/
def pathStr : FPath → String
  | [] => ""
  | [x] => x
  | x :: xs => x ++ "/" ++ pathStr xs

/-- Join with dots, the inverse direction of a dot split. -/
def joinDots : List String → String
  | [] => ""
  | [x] => x
  | x :: xs => x ++ "." ++ joinDots xs

/-- Rendering used only to give sidecars a byte size for `fs.stat`. -/
def metaRender (m : Metadata) : String :=
  pathStr m.originalFile ++ m.timestamp ++ srcName m.source ++
    m.authId ++ pathStr m.relativePath ++
    m.accountInfo.name ++ m.accountInfo.id ++ m.accountInfo.url

/-- Byte size of a file, for the `fs.stat` size comparisons. -/
def Content.size : Content → Nat
  | .text s => s.length
  | .meta m => (metaRender m).length

/-- Configuration a `BackupManager` instance closes over: the first workspace
folder and the resolved base backup directory. -/
structure Config where
  workspaceRoot : FPath
  baseBackupDir : FPath
  authId : Option String

/-- The private `getRelativePath` (backupManager.ts 693-718): `path.relative`
from the workspace root, modelled for paths under the root. -/
def getRelativePath (cfg : Config) (p : FPath) : FPath :=
  if isPre cfg.workspaceRoot p then p.drop cfg.workspaceRoot.length else p

/-- Last segment of a path, the `path.basename`. -/
def bname (p : FPath) : Seg := (p.getLast?).getD ""

/-- The timestamped backup path `createBackup` chooses (backupManager.ts
366-378): `baseBackupDir/authId/source/fileDir/fileName.timestamp.bak`,
where `ts` is the already colon-and-dot-mangled ISO timestamp. -/
def backupPathOf (cfg : Config) (authId : String) (src : Source) (uri : FPath)
    (ts : String) : FPath :=
  let rel := getRelativePath cfg uri
  cfg.baseBackupDir ++ authId :: srcName src :: rel.dropLast ++
    [bname rel ++ "." ++ ts ++ ".bak"]

/-- The sidecar path: the content path with the string `.meta.json` appended
(string concatenation on the whole path, so it lands on the last segment). -/
def metaPathOf (p : FPath) : FPath := p.dropLast ++ [bname p ++ ".meta.json"]

/-- Account-descriptor computation of `createBackup` (backupManager.ts
380-413): take the SuiteCloudManager info when present, otherwise fall back
to project.json account values when name and id are both still empty. -/
def resolveAccountInfo (acctLookup : String → Option AccountInfo)
    (projectAcct : String → Option AccountInfo) (authId : String) : AccountInfo :=
  let a0 := (acctLookup authId).getD ⟨"", "", ""⟩
  if a0.name = "" ∧ a0.id = "" then (projectAcct authId).getD a0 else a0

/-- The metadata record `createBackup` serializes (backupManager.ts 417-424).
`iso` is the second `new Date().toISOString()` read. -/
def backupMetadata (cfg : Config) (acctLookup projectAcct : String → Option AccountInfo)
    (authId : String) (src : Source) (uri : FPath) (iso : String) : Metadata :=
  { originalFile := uri
    timestamp := iso
    source := src
    authId := authId
    relativePath := getRelativePath cfg uri
    accountInfo := resolveAccountInfo acctLookup projectAcct authId }

/-- Embedding of `BackupManager.createBackup` (backupManager.ts 358-441).
`ts` is the filename timestamp (first clock read, colons and dots replaced),
`iso` the metadata timestamp (second clock read).  Returns `none` when the
source throws (no authentication ID, or the file at `uri` is unreadable),
otherwise the filesystem after the two writes and the returned backup path. -/
def createBackup (cfg : Config) (acctLookup projectAcct : String → Option AccountInfo)
    (ts iso : String) (fs : FS) (uri : FPath) (src : Source) :
    Option (FS × FPath) :=
  match cfg.authId with
  | none => none
  | some authId =>
    match fs uri with
    | none => none
    | some content =>
      let bp := backupPathOf cfg authId src uri ts
      let mp := metaPathOf bp
      let md := backupMetadata cfg acctLookup projectAcct authId src uri iso
      some (((fs.write bp content).write mp (.meta md)), bp)

/-- Durations and fault injection for the timed file operations. -/
structure IoEnv where
  copyFails : Bool
  readMs : FPath → Nat
  writeMs : Nat

/-- Error outcomes of `restoreFile`. -/
inductive RestoreErr where
  | invalidInput
  | backupNotFound (p : FPath)
  | timeout
deriving DecidableEq, Repr

/-- The race deadline used by `restoreFile` and `compareFiles`
(backupManager.ts 467 and 603): 120000 ms. -/
def timeoutMs : Nat := 120000

/-- Embedding of `BackupManager.restoreFile` (backupManager.ts 443-564).
Validates its inputs, checks the backup exists, then tries `fs.copyFile`;
when the copy fails it falls back to a read and a write, each raced against
the 120000 ms timeout.  On success the target holds the backup contents. -/
def restoreFile (env : IoEnv) (fs : FS) (target bp : FPath) :
    Except RestoreErr FS :=
  if bp = [] then .error .invalidInput
  else if target = [] then .error .invalidInput
  else
    match fs bp with
    | none => .error (.backupNotFound bp)
    | some content =>
      if env.copyFails then
        if timeoutMs < env.readMs bp then .error .timeout
        else if timeoutMs < env.writeMs then .error .timeout
        else .ok (fs.write target content)
      else .ok (fs.write target content)

/-- Error outcomes of the body of `compareFiles` before its catch-all. -/
inductive CmpErr where
  | notFound (p : FPath)
  | timeout
deriving DecidableEq, Repr

/-- Body of `BackupManager.compareFiles` (backupManager.ts 570-641): checks
both files exist, compares `fs.stat` sizes first and answers `true` without
reading when they differ, then reads both contents raced against the
120000 ms timeout and answers whether they differ. -/
def compareFilesInner (env : IoEnv) (fs : FS) (p1 p2 : FPath) :
    Except CmpErr Bool :=
  match fs p1 with
  | none => .error (.notFound p1)
  | some c1 =>
    match fs p2 with
    | none => .error (.notFound p2)
    | some c2 =>
      if c1.size ≠ c2.size then .ok true
      else if timeoutMs < env.readMs p1 ∨ timeoutMs < env.readMs p2 then
        .error .timeout
      else .ok (decide (c1 ≠ c2))

/-- Embedding of `BackupManager.compareFiles` (backupManager.ts 566-654):
the body above with the catch-all that turns every error into `true`
(files assumed different). -/
def compareFiles (env : IoEnv) (fs : FS) (p1 p2 : FPath) : Bool :=
  match compareFilesInner env fs p1 p2 with
  | .ok b => b
  | .error _ => true

/-- JavaScript `name.split(sep).slice(0, -2).join(sep)` for dots: drops the
last two dot-components of a file name (backupManager.ts 667). -/
def dropLast2Exts (s : String) : String :=
  joinDots ((splitOnStr s ".").dropLast.dropLast)

/-- The `path.relative` used from `getOriginalFilePath` (backupManager.ts
676), modelled for directories under the base backup directory. -/
def relFrom (base p : FPath) : FPath :=
  if isPre base p then p.drop base.length else p

/-- Embedding of `BackupManager.getOriginalFilePath` (backupManager.ts
656-691).  Reads the sidecar at the content path plus `.meta.json`; a
parseable sidecar yields its `originalFile`; an unparseable one makes
`JSON.parse` throw, which the catch turns into `none`; with no sidecar the
original is inferred from the backup directory layout
`backups/authId/source/relativePath`. -/
def getOriginalFilePath (cfg : Config) (fs : FS) (bp : FPath) : Option FPath :=
  match fs (metaPathOf bp) with
  | some (.meta md) => some md.originalFile
  | some (.text _) => none
  | none =>
    let fname := dropLast2Exts (bname bp)
    let relParts := relFrom cfg.baseBackupDir bp.dropLast
    let relDir := if 2 ≤ relParts.length then relParts.drop 2 else relParts
    some (cfg.workspaceRoot ++ relDir ++ [fname])

/-! ## Directory-tree model for the recursive index rebuild

`listBackups` and `findBackupFiles` (backupManager.ts 757-886) traverse the
backup directory with `fs.readdir`; that traversal needs an enumerable
filesystem, modelled as a tree of named entries.  Sidecar reads inside the
traversal hit the metadata path of the current entry, which lies in the same
directory listing, so they are modelled as sibling lookups. -/

/-- A directory tree: files with contents, directories with entries. -/
inductive FsTree where
  | file (name : Seg) (data : Content)
  | dir (name : Seg) (children : List FsTree)
deriving Repr

/-- Name of an entry. -/
def FsTree.entryName : FsTree → Seg
  | .file n _ => n
  | .dir n _ => n

/-- First entry with the given name, as the filesystem resolves a path. -/
def findEntry (children : List FsTree) (n : Seg) : Option FsTree :=
  children.find? (fun e => e.entryName = n)

/-- One entry of the map `listBackups` returns: path, timestamp, source,
authId, accountInfo. -/
structure BackupRec where
  path : FPath
  timestamp : String
  source : Source
  authId : String
  accountInfo : AccountInfo
deriving DecidableEq, Repr

/-- The mutable `Map` accumulated by `findBackupFiles`, with JavaScript
insertion-order semantics, as an association list. -/
def BMap : Type := List (FPath × List BackupRec)

/-- JavaScript `Map.prototype.get`. -/
def lookupB : BMap → FPath → Option (List BackupRec)
  | [], _ => none
  | (k, v) :: t, q => if k = q then some v else lookupB t q

/-- The push performed at backupManager.ts 868-879: append the record to the
list at the key, creating the key at the end on first use. -/
def pushRec : BMap → FPath → BackupRec → BMap
  | [], k, r => [(k, [r])]
  | (k', v) :: t, k, r =>
    if k' = k then (k', v ++ [r]) :: t else (k', v) :: pushRec t k r

/-- Push a whole list of keyed records in order. -/
def pushAll (acc : BMap) (l : List (FPath × BackupRec)) : BMap :=
  l.foldl (fun m pr => pushRec m pr.1 pr.2) acc

/-- JavaScript `name.split('.').slice(-2, -1)[0]`: the second-to-last
dot-component (backupManager.ts 855). -/
def secondToLastExt (s : String) : String :=
  (((splitOnStr s ".").reverse).drop 1).headD ""

/-- The dash-restoring replace of backupManager.ts 856-860: dashes at
offsets 13 and 16 become colons, a dash at offset 10 becomes a dot, all
other characters stay. -/
def fixTsOffsets (s : String) : String :=
  String.mk (s.data.mapIdx (fun i c =>
    if c = '-' then
      if i = 13 ∨ i = 16 then ':' else if i = 10 then '.' else c
    else c))

/-- The record `findBackupFiles` builds for a `.bak` entry (backupManager.ts
833-879): with a parseable sidecar, timestamp, authId and accountInfo come
from it; without one, the timestamp is recovered from the file name and the
rest defaults to empty. -/
def recOfEntry (all : List FsTree) (dirPath : FPath) (n : Seg) (src : Source) :
    BackupRec :=
  match findEntry all (n ++ ".meta.json") with
  | some (.file _ (.meta md)) =>
    { path := dirPath ++ [n], timestamp := md.timestamp, source := src,
      authId := md.authId, accountInfo := md.accountInfo }
  | _ =>
    { path := dirPath ++ [n], timestamp := fixTsOffsets (secondToLastExt n),
      source := src, authId := "", accountInfo := ⟨"", "", ""⟩ }

/-- The `getOriginalFilePath` call made from inside the traversal
(backupManager.ts 830): the sidecar of `dirPath/n` is the sibling named
`n ++ ".meta.json"`.  A parseable sidecar yields its `originalFile`; an
unparseable sidecar (text file, or a directory of that name) makes
`JSON.parse` throw and yields `none`; with no sidecar the original path is
inferred from the `authId/source/relativePath` layout. -/
def origPathOfEntry (cfg : Config) (all : List FsTree) (dirPath : FPath)
    (n : Seg) : Option FPath :=
  match findEntry all (n ++ ".meta.json") with
  | some (.file _ (.meta md)) => some md.originalFile
  | some (.file _ (.text _)) => none
  | some (.dir _ _) => none
  | none =>
    let fname := dropLast2Exts n
    let relParts := relFrom cfg.baseBackupDir dirPath
    let relDir := if 2 ≤ relParts.length then relParts.drop 2 else relParts
    some (cfg.workspaceRoot ++ relDir ++ [fname])

/-- Embedding of `BackupManager.findBackupFiles` (backupManager.ts 812-886):
depth-first over the directory listing, in order; directories recurse, files
ending in `.bak` whose original path resolves push a record.  `all` is the
full `readdir` listing of the current directory (for sibling sidecar
lookups), `rem` the entries still to process. -/
def findBackupFiles (cfg : Config) (src : Source) (dirPath : FPath)
    (all rem : List FsTree) (acc : BMap) : BMap :=
  match rem with
  | [] => acc
  | .dir n cs :: rest =>
    findBackupFiles cfg src dirPath all rest
      (findBackupFiles cfg src (dirPath ++ [n]) cs cs acc)
  | .file n _ :: rest =>
    findBackupFiles cfg src dirPath all rest
      (if strEndsWith n ".bak" && !(strEndsWith n ".meta.json") then
        match origPathOfEntry cfg all dirPath n with
        | none => acc
        | some orig => pushRec acc orig (recOfEntry all dirPath n src)
      else acc)
termination_by sizeOf rem
decreasing_by all_goals (simp_wf; try omega)

/-- The directory names accepted as source directories (backupManager.ts
789): only `local` and `account` are processed. -/
def parseSource (s : Seg) : Option Source :=
  if s = "local" then some .localSrc
  else if s = "account" then some .accountSrc
  else none

/-- The inner loop of `listBackups` (backupManager.ts 781-798): over the
entries of one auth-id directory, running the recursive search under each
directory named `local` or `account` and skipping everything else. -/
def foldSources (cfg : Config) (authId : Seg) :
    List FsTree → BMap → BMap
  | [], acc => acc
  | .file _ _ :: rest, acc => foldSources cfg authId rest acc
  | .dir sname cs :: rest, acc =>
    foldSources cfg authId rest
      (match parseSource sname with
       | some src =>
         findBackupFiles cfg src (cfg.baseBackupDir ++ [authId, sname]) cs cs
           acc
       | none => acc)

/-- The outer loop of `listBackups` (backupManager.ts 767-803): over the
auth-id entries of the base backup directory, skipping plain files. -/
def foldAuthDirs (cfg : Config) : List FsTree → BMap → BMap
  | [], acc => acc
  | .file _ _ :: rest, acc => foldAuthDirs cfg rest acc
  | .dir authId sources :: rest, acc =>
    foldAuthDirs cfg rest (foldSources cfg authId sources acc)

/-- Embedding of `BackupManager.listBackups` (backupManager.ts 757-810):
starts from an empty map on every call, lists the auth-id directories, then
their source directories, and runs the recursive search under each. -/
def listBackups (cfg : Config) (base : List FsTree) : BMap :=
  foldAuthDirs cfg base []

/-- Specification-side enumeration: the keyed records contributed by a
directory listing, in traversal order. -/
def collectBackupFiles (cfg : Config) (src : Source) (dirPath : FPath)
    (all rem : List FsTree) : List (FPath × BackupRec) :=
  match rem with
  | [] => []
  | .dir n cs :: rest =>
    collectBackupFiles cfg src (dirPath ++ [n]) cs cs ++
      collectBackupFiles cfg src dirPath all rest
  | .file n _ :: rest =>
    (if strEndsWith n ".bak" && !(strEndsWith n ".meta.json") then
      match origPathOfEntry cfg all dirPath n with
      | none => []
      | some orig => [(orig, recOfEntry all dirPath n src)]
    else []) ++ collectBackupFiles cfg src dirPath all rest
termination_by sizeOf rem
decreasing_by all_goals (simp_wf; try omega)

/-- Specification-side enumeration over the source directories of one
auth-id directory. -/
def collectSources (cfg : Config) (authId : Seg) :
    List FsTree → List (FPath × BackupRec)
  | [] => []
  | .dir sname cs :: rest =>
    (match parseSource sname with
     | some src =>
       collectBackupFiles cfg src (cfg.baseBackupDir ++ [authId, sname]) cs cs
     | none => []) ++ collectSources cfg authId rest
  | .file _ _ :: rest => collectSources cfg authId rest

/-- Specification-side enumeration of every backup record reachable from the
base backup directory, in traversal order. -/
def collectAll (cfg : Config) : List FsTree → List (FPath × BackupRec)
  | [] => []
  | .dir authId sources :: rest =>
    collectSources cfg authId sources ++ collectAll cfg rest
  | .file _ _ :: rest => collectAll cfg rest

/-- Specification-side grouping: the records of an enumeration whose
original-file key is `q`, in order. -/
def groupGet (q : FPath) (l : List (FPath × BackupRec)) : List BackupRec :=
  (l.filter (fun pr => pr.1 = q)).map Prod.snd

/-! ## The uploadFile command flow (extension.ts 390-797)

External CLI calls and user dialog answers are oracle fields of
`FlowParams`.  A successful `file:import` overwrites the local file with the
remote version; a failed one leaves it alone.  `file:upload` never changes
the local filesystem.  Step 6 (comparison) only selects between notification
dialogs and has no filesystem effect, so it is not tracked in the outcome. -/

/-- Outcome of one external CLI invocation, as seen through `runCommand`. -/
inductive CmdR where
  | ok (stdout : String)
  | fail (msg : String)
deriving DecidableEq, Repr

/-- How the command handler finishes: normal completion, the early `return`
of the two authentication-error branches, or an error thrown out of the
`withProgress` body (caught and shown at extension.ts 789-795). -/
inductive FlowRes where
  | done
  | earlyReturn
  | thrown
deriving DecidableEq, Repr

/-- Oracles and configuration for one run of the uploadFile command. -/
structure FlowParams where
  cfg : Config
  acctLookup : String → Option AccountInfo
  projectAcct : String → Option AccountInfo
  tsL : String
  isoL : String
  tsA : String
  isoA : String
  importResult : CmdR
  remote : Content
  uploadAt : Nat → CmdR
  importAuthRunAuth : Bool
  uploadAuthRunAuth : Bool
  setupThrows : Bool
  refreshThrows : Bool
  env : IoEnv

/-- Result of one run of the uploadFile command flow. -/
structure FlowOut where
  fs : FS
  result : FlowRes
  importCalls : Nat
  uploadCalls : Nat

/-- The file-not-found test on a failed import (extension.ts 471-472). -/
def importNotFoundErr (msg : String) : Bool :=
  strContains msg "does not exist in NetSuite" ||
    strContains msg "No files were found"

/-- The authentication-error test on a failed import (extension.ts
503-505). -/
def importAuthErr (msg : String) : Bool :=
  strContains msg "authentication" || strContains msg "auth" ||
    strContains msg "credentials"

/-- The authentication-error test on a failed upload (extension.ts
611-616). -/
def uploadAuthErr (msg : String) : Bool :=
  strContains msg "authentication ID is not available" ||
    strContains msg "auth" || strContains msg "credentials" ||
    strContains msg "token expired" || strContains msg "token invalid" ||
    strContains msg "not authenticated"

/-- The catch-handler emergency restore (extension.ts 772-784): attempt
`restoreFile`; its own failure is swallowed and the filesystem left as it
was. -/
def emergencyRestore (env : IoEnv) (fs : FS) (uri bp : FPath) : FS :=
  match restoreFile env fs uri bp with
  | .ok f => f
  | .error _ => fs

/-- Embedding of the body of the `suitecloudbackup.uploadFile` command
(extension.ts 434-787): local backup, import, account backup, restore of the
local version, upload, with the not-found skip branch, the two
authentication dialogs with their one-shot upload retry, and the emergency
restore in the catch handler.  `uploadCalls` counts external
`file:upload` invocations, `importCalls` external `file:import`
invocations. -/
def runUploadFlow (P : FlowParams) (fs0 : FS) (uri : FPath) : FlowOut :=
  match createBackup P.cfg P.acctLookup P.projectAcct P.tsL P.isoL fs0 uri .localSrc with
  | none => { fs := fs0, result := .thrown, importCalls := 0, uploadCalls := 0 }
  | some (fs1, bp) =>
    match P.importResult with
    | .fail msg =>
      if importNotFoundErr msg then
        match P.uploadAt 0 with
        | .ok _ => { fs := fs1, result := .done, importCalls := 1, uploadCalls := 1 }
        | .fail _ =>
          { fs := emergencyRestore P.env fs1 uri bp, result := .thrown,
            importCalls := 1, uploadCalls := 1 }
      else if importAuthErr msg then
        if P.importAuthRunAuth then
          if P.setupThrows || P.refreshThrows then
            { fs := fs1, result := .earlyReturn, importCalls := 1, uploadCalls := 0 }
          else
            { fs := fs1, result := .earlyReturn, importCalls := 1, uploadCalls := 1 }
        else
          { fs := fs1, result := .earlyReturn, importCalls := 1, uploadCalls := 0 }
      else
        { fs := emergencyRestore P.env fs1 uri bp, result := .thrown,
          importCalls := 1, uploadCalls := 0 }
    | .ok _ =>
      let fs2 := fs1.write uri P.remote
      match createBackup P.cfg P.acctLookup P.projectAcct P.tsA P.isoA fs2 uri .accountSrc with
      | none =>
        { fs := emergencyRestore P.env fs2 uri bp, result := .thrown,
          importCalls := 1, uploadCalls := 0 }
      | some (fs3, _abp) =>
        if fs3 bp = none then
          { fs := emergencyRestore P.env fs3 uri bp, result := .thrown,
            importCalls := 1, uploadCalls := 0 }
        else
          match restoreFile P.env fs3 uri bp with
          | .error _ =>
            { fs := emergencyRestore P.env fs3 uri bp, result := .thrown,
              importCalls := 1, uploadCalls := 0 }
          | .ok fs4 =>
            match P.uploadAt 0 with
            | .ok _ =>
              { fs := fs4, result := .done, importCalls := 1, uploadCalls := 1 }
            | .fail umsg =>
              if uploadAuthErr umsg then
                if P.uploadAuthRunAuth then
                  if P.setupThrows || P.refreshThrows then
                    { fs := fs4, result := .earlyReturn, importCalls := 1,
                      uploadCalls := 1 }
                  else
                    { fs := fs4, result := .earlyReturn, importCalls := 1,
                      uploadCalls := 2 }
                else
                  { fs := fs4, result := .earlyReturn, importCalls := 1,
                    uploadCalls := 1 }
              else
                { fs := emergencyRestore P.env fs4 uri bp, result := .thrown,
                  importCalls := 1, uploadCalls := 1 }

/-! ## SuiteCloudManager, first version (src/suiteCloudManager.ts)

Claim C10 cites the `uploadFile` / `importFile` / `convertToSuiteCloudPath`
of `src/src/suiteCloudManager.ts` (lines 123-200); they are embedded here
with string paths, since the conversion is string manipulation. -/

/-- The `CommandResult` interface of suiteCloudManager.ts. -/
structure CommandResult where
  success : Bool
  output : Option String
  error : Option String
deriving DecidableEq, Repr

/-- The `path.relative` used by `convertToSuiteCloudPath`, modelled for
paths under the project root (see the module conventions). -/
def relativeStr (root p : String) : String :=
  if (root ++ "/").data.isPrefixOf p.data then String.mk (p.data.drop (root.length + 1))
  else p

/-- Backslash-to-slash normalization (suiteCloudManager.ts 175). -/
def toSlash (s : String) : String :=
  String.mk (s.data.map (fun c => if c = '\\' then '/' else c))

/-- The tail assembly of `convertToSuiteCloudPath` (suiteCloudManager.ts
182-183): strip a leading slash from `parts[1]` and prepend
`SuiteScripts`. -/
def scpAssemble (p1 : String) : String :=
  let sp := if strStartsWith p1 "/" then strDropL p1 1 else p1
  "SuiteScripts" ++ (if sp ≠ "" then "/" ++ sp else "")

/-- Embedding of `SuiteCloudManager.convertToSuiteCloudPath`
(suiteCloudManager.ts 164-200): relative path from the project root,
slash-normalized; a path containing `FileCabinet/SuiteScripts` (else
`SuiteScripts`) as a substring is split on that first marker and
reassembled; anything else yields null. -/
def convertToSuiteCloudPath (root? : Option String) (fsPath : String) :
    Option String :=
  match root? with
  | none => none
  | some root =>
    let rel := toSlash (relativeStr root fsPath)
    if strContains rel "FileCabinet/SuiteScripts" then
      match (splitOnStr rel "FileCabinet/SuiteScripts").get? 1 with
      | some p1 => some (scpAssemble p1)
      | none => none
    else if strContains rel "SuiteScripts" then
      match (splitOnStr rel "SuiteScripts").get? 1 with
      | some p1 => some (scpAssemble p1)
      | none => none
    else none

/-- Embedding of `SuiteCloudManager.runCommand` (suiteCloudManager.ts
94-121). -/
def runCommand1 (root? : Option String) (cli : String → CmdR) (cmd : String) :
    CommandResult :=
  match root? with
  | none =>
    { success := false, output := none,
      error := some "No project root directory found" }
  | some _ =>
    match cli cmd with
    | .ok out => { success := true, output := some out, error := none }
    | .fail msg => { success := false, output := none, error := some msg }

/-- Embedding of `SuiteCloudManager.uploadFile` (suiteCloudManager.ts
123-141).  The boolean reports whether the external command was invoked. -/
def scmUploadFile (root? : Option String) (cli : String → CmdR)
    (uriFsPath : String) : CommandResult × Bool :=
  match convertToSuiteCloudPath root? uriFsPath with
  | none =>
    ({ success := false, output := none,
       error := some "Invalid file path: Not a SuiteScripts file" }, false)
  | some fp =>
    (runCommand1 root? cli ("suitecloud file:upload --paths \"" ++ fp ++ "\""),
      true)

/-- Embedding of `SuiteCloudManager.importFile` (suiteCloudManager.ts
143-162). -/
def scmImportFile (root? : Option String) (cli : String → CmdR)
    (uriFsPath : String) : CommandResult × Bool :=
  match convertToSuiteCloudPath root? uriFsPath with
  | none =>
    ({ success := false, output := none,
       error := some "Invalid file path: Not a SuiteScripts file" }, false)
  | some fp =>
    (runCommand1 root? cli ("suitecloud file:import --paths \"/" ++ fp ++ "\""),
      true)

/-! ## SuiteCloudManager, current version: stdout parsing (part_002)

Claim C8 additionally cites the richer `SuiteCloudManager` (source file
part_002): authId detection in `initialize` (lines 184-203) and the
line-oriented account parsing of `fetchAccountInfo` (lines 226-297). -/

/-- Capture of the first match of the regular expression
`pat((not excl)+)`: scan for the first position where `pat` occurs followed
by at least one character not excluded, and take the maximal run of
non-excluded characters after `pat` (greedy `+`). -/
def reCapture (pat : List Char) (excl : Char → Bool) :
    List Char → Option (List Char)
  | [] => none
  | c :: t =>
    if pat.isPrefixOf (c :: t) then
      let cap := ((c :: t).drop pat.length).takeWhile (fun ch => !(excl ch))
      if cap.isEmpty then reCapture pat excl t else some cap
    else reCapture pat excl t

/-- The capture of `/ID: (\S+)/` (part_002 line 192 and 262). -/
def idCapture (l : List Char) : Option (List Char) :=
  reCapture "ID: ".data (fun c => c.isWhitespace) l

/-- First element of `out.match(/ID: (\S+)/g)`: the matched substring, which
is `ID: ` followed by the captured non-space run. -/
def firstIdMatchStr (l : List Char) : Option (List Char) :=
  (idCapture l).map (fun cap => "ID: ".data ++ cap)

/-- The detection block of `initialize` (part_002 lines 184-199): empty
stdout is falsy and skipped; otherwise the first element of the global
match is re-matched and its capture taken. -/
def detectAuthIdFromStdout (out : String) : Option String :=
  if out = "" then none
  else
    match firstIdMatchStr out.data with
    | none => none
    | some m =>
      match idCapture m with
      | none => none
      | some cap => some (String.mk cap)

/-- Specification-side description: the first capture of `/ID: (\S+)/` in
the stdout. -/
def firstIdCapture (out : String) : Option String :=
  (idCapture out.data).map String.mk

/-- JavaScript string truthiness on optional strings: undefined and the
empty string are falsy. -/
def normOpt : Option String → Option String
  | some "" => none
  | x => x

/-- CLI oracle for initialization: the stdout of
`suitecloud account:manageauth --list`, `none` when `exec` throws. -/
structure CliWorld where
  manageauthList : Option String

/-- Embedding of the authId resolution in `SuiteCloudManager.initialize`
(part_002 lines 117-221): project.json `defaultAuthId` first, then the
VS Code setting, then regex detection over the manageauth output; on
`exec` failure the error is caught and no authId is set. -/
def initializeAuthId (projectAuth settingsAuth : Option String)
    (w : CliWorld) : Option String :=
  match normOpt projectAuth with
  | some a => some a
  | none =>
    match normOpt settingsAuth with
    | some a => some a
    | none =>
      match w.manageauthList with
      | none => none
      | some out => detectAuthIdFromStdout out

/-- JavaScript `Map.prototype.set` keyed by auth id, insertion order kept. -/
def setAcct (m : List (String × AccountInfo)) (k : String) (v : AccountInfo) :
    List (String × AccountInfo) :=
  match m with
  | [] => [(k, v)]
  | (k', v') :: t => if k' = k then (k, v) :: t else (k', v') :: setAcct t k v

/-- JavaScript `Map.prototype.get` keyed by auth id. -/
def getAcct (m : List (String × AccountInfo)) (k : String) :
    Option AccountInfo :=
  match m with
  | [] => none
  | (k', v) :: t => if k' = k then some v else getAcct t k

/-- State of the line loop of `fetchAccountInfo` (part_002 lines 256-293):
the current auth id (initially empty, falsy) and the accumulated account
map. -/
structure AcctParseSt where
  current : String
  acc : List (String × AccountInfo)

/-- One iteration of the line loop of `fetchAccountInfo` (part_002 lines
261-292): a line matching `/ID: (\S+)/` updates the current auth id;
otherwise, with a current auth id set, the three line-oriented regexes
`Account name: ([^\n]+)`, `Account ID: ([^\n]+)`, `Account URL: ([^\n]+)`
update the trimmed fields of the entry for the current auth id. -/
def acctLineStep (st : AcctParseSt) (line : String) : AcctParseSt :=
  match idCapture line.data with
  | some cap => { st with current := String.mk cap }
  | none =>
    if st.current = "" then st
    else
      let nameM := reCapture "Account name: ".data (fun c => c = '\n') line.data
      let idM := reCapture "Account ID: ".data (fun c => c = '\n') line.data
      let urlM := reCapture "Account URL: ".data (fun c => c = '\n') line.data
      if nameM.isSome || idM.isSome || urlM.isSome then
        let e0 := (getAcct st.acc st.current).getD ⟨"", "", ""⟩
        let e1 := match nameM with
          | some n => { e0 with name := jsTrim (String.mk n) }
          | none => e0
        let e2 := match idM with
          | some i => { e1 with id := jsTrim (String.mk i) }
          | none => e1
        let e3 := match urlM with
          | some u => { e2 with url := jsTrim (String.mk u) }
          | none => e2
        { st with acc := setAcct st.acc st.current e3 }
      else st

/-- The manageauth section of `fetchAccountInfo` (part_002 lines 251-293),
applied to the list of stdout lines. -/
def parseManageauthAccounts (lines : List String)
    (init : List (String × AccountInfo)) : List (String × AccountInfo) :=
  (lines.foldl acctLineStep { current := "", acc := init }).acc

/-! ## Shared lemmas about the embedded operations -/

theorem FS.write_self (fs : FS) (p : FPath) (c : Content) :
    fs.write p c p = some c := by
  simp [FS.write]

theorem FS.write_ne (fs : FS) {p q : FPath} (c : Content) (h : q ≠ p) :
    fs.write p c q = fs q := by
  simp [FS.write, h]

theorem isPre_append (l r : FPath) : isPre l (l ++ r) = true := by
  induction l with
  | nil => simp [isPre]
  | cons a t ih => simp [isPre, ih]

theorem getRelativePath_append (cfg : Config) (rel : FPath) :
    getRelativePath cfg (cfg.workspaceRoot ++ rel) = rel := by
  simp [getRelativePath, isPre_append, List.drop_left]

theorem backupPathOf_concat (cfg : Config) (a : String) (src : Source)
    (uri : FPath) (ts : String) :
    backupPathOf cfg a src uri ts =
      (cfg.baseBackupDir ++ a :: srcName src ::
          (getRelativePath cfg uri).dropLast) ++
        [bname (getRelativePath cfg uri) ++ "." ++ ts ++ ".bak"] := by
  simp [backupPathOf]

theorem bname_concat (l : FPath) (w : Seg) : bname (l ++ [w]) = w := by
  simp [bname, List.getLast?_concat]

theorem metaPathOf_concat (l : FPath) (w : Seg) :
    metaPathOf (l ++ [w]) = l ++ [w ++ ".meta.json"] := by
  simp [metaPathOf, bname_concat, List.dropLast_concat]

theorem str_ne_append {w s : String} (h : s.length ≠ 0) : w ≠ w ++ s := by
  intro he
  apply h
  have hl := congrArg String.length he
  rw [String.length_append] at hl
  omega

theorem concat_ne_concat_right {l : FPath} {w w2 : Seg} (h : w ≠ w2) :
    l ++ [w] ≠ l ++ [w2] := by
  intro he
  exact h (by simpa using List.append_cancel_left he)

theorem ne_of_getLast?_ne {p q : FPath} (h : p.getLast? ≠ q.getLast?) :
    p ≠ q := fun he => h (he ▸ rfl)

theorem getLast?_eq_bname {l : FPath} (h : l ≠ []) :
    l.getLast? = some (bname l) := by
  cases hl : l.getLast? with
  | none => exact absurd (by simpa using hl) h
  | some x => simp [bname, hl]

theorem bakSuffix_len (ts : String) :
    ("." ++ ts ++ ".bak").length = ts.length + 5 := by
  have h1 : ".".length = 1 := rfl
  have h2 : ".bak".length = 4 := rfl
  simp [String.length_append]
  omega

theorem uri_ne_backupPath (cfg : Config) (a : String) (src : Source)
    (rel : FPath) (ts : String) (hr : rel ≠ []) :
    cfg.workspaceRoot ++ rel ≠
      backupPathOf cfg a src (cfg.workspaceRoot ++ rel) ts := by
  apply ne_of_getLast?_ne
  rw [backupPathOf_concat, getRelativePath_append, List.getLast?_concat,
    List.getLast?_append_of_ne_nil _ hr, getLast?_eq_bname hr]
  intro he
  have hx : bname rel = bname rel ++ ("." ++ ts ++ ".bak") := by
    have := Option.some.inj he
    simpa [String.append_assoc] using this
  exact str_ne_append (by rw [bakSuffix_len]; omega) hx

theorem uri_ne_metaPath (cfg : Config) (a : String) (src : Source)
    (rel : FPath) (ts : String) (hr : rel ≠ []) :
    cfg.workspaceRoot ++ rel ≠
      metaPathOf (backupPathOf cfg a src (cfg.workspaceRoot ++ rel) ts) := by
  apply ne_of_getLast?_ne
  rw [backupPathOf_concat, getRelativePath_append, metaPathOf_concat,
    List.getLast?_concat, List.getLast?_append_of_ne_nil _ hr,
    getLast?_eq_bname hr]
  intro he
  have hx : bname rel =
      bname rel ++ ("." ++ ts ++ ".bak" ++ ".meta.json") := by
    have := Option.some.inj he
    simpa [String.append_assoc] using this
  apply str_ne_append _ hx
  rw [String.length_append, bakSuffix_len]
  omega

theorem backupPath_ne_metaPath {p : FPath} (h : p ≠ []) :
    p ≠ metaPathOf p := by
  conv_lhs => rw [← List.dropLast_append_getLast h]
  rw [metaPathOf]
  apply concat_ne_concat_right
  have hb : p.getLast h = bname p := by
    simp [bname, List.getLast?_eq_getLast p h]
  rw [hb]
  exact str_ne_append (by decide)

theorem mid_ne {base : FPath} {x s1 s2 : Seg} {t1 t2 : FPath} (h : s1 ≠ s2) :
    base ++ x :: s1 :: t1 ≠ base ++ x :: s2 :: t2 := by
  intro he
  have h2 := List.append_cancel_left he
  exact h (List.cons.inj (List.cons.inj h2).2).1

theorem backupPathOf_mid (cfg : Config) (a : String) (src : Source)
    (uri : FPath) (ts : String) :
    backupPathOf cfg a src uri ts =
      cfg.baseBackupDir ++ a :: srcName src ::
        ((getRelativePath cfg uri).dropLast ++
          [bname (getRelativePath cfg uri) ++ "." ++ ts ++ ".bak"]) := by
  simp [backupPathOf]

theorem metaPathOf_backupPathOf_mid (cfg : Config) (a : String) (src : Source)
    (uri : FPath) (ts : String) :
    metaPathOf (backupPathOf cfg a src uri ts) =
      cfg.baseBackupDir ++ a :: srcName src ::
        ((getRelativePath cfg uri).dropLast ++
          [bname (getRelativePath cfg uri) ++ "." ++ ts ++ ".bak" ++
            ".meta.json"]) := by
  rw [backupPathOf_concat, metaPathOf_concat]
  simp

theorem backupPathOf_ne_nil (cfg : Config) (a : String) (src : Source)
    (uri : FPath) (ts : String) : backupPathOf cfg a src uri ts ≠ [] := by
  rw [backupPathOf_concat]
  simp

theorem backupPath_ne_of_src {cfg : Config} {a : String} {s1 s2 : Source}
    {u1 u2 : FPath} {t1 t2 : String} (h : srcName s1 ≠ srcName s2) :
    backupPathOf cfg a s1 u1 t1 ≠ backupPathOf cfg a s2 u2 t2 := by
  rw [backupPathOf_mid cfg a s1, backupPathOf_mid cfg a s2]
  exact mid_ne h

theorem backupPath_ne_metaPath_of_src {cfg : Config} {a : String}
    {s1 s2 : Source} {u1 u2 : FPath} {t1 t2 : String}
    (h : srcName s1 ≠ srcName s2) :
    backupPathOf cfg a s1 u1 t1 ≠ metaPathOf (backupPathOf cfg a s2 u2 t2) := by
  rw [backupPathOf_mid cfg a s1, metaPathOf_backupPathOf_mid cfg a s2]
  exact mid_ne h

theorem createBackup_some (cfg : Config)
    (al pa : String → Option AccountInfo) (ts iso : String) (fs : FS)
    (uri : FPath) (src : Source) {a : String} {c : Content}
    (h1 : cfg.authId = some a) (h2 : fs uri = some c) :
    createBackup cfg al pa ts iso fs uri src =
      some ((fs.write (backupPathOf cfg a src uri ts) c).write
          (metaPathOf (backupPathOf cfg a src uri ts))
          (.meta (backupMetadata cfg al pa a src uri iso)),
        backupPathOf cfg a src uri ts) := by
  rw [createBackup, h1, h2]

theorem restoreFile_ok (env : IoEnv) (fs : FS) {target bp : FPath}
    {c : Content} (ht : target ≠ []) (hb : bp ≠ []) (hc : fs bp = some c)
    (hr : env.readMs bp ≤ timeoutMs) (hw : env.writeMs ≤ timeoutMs) :
    restoreFile env fs target bp = .ok (fs.write target c) := by
  rw [restoreFile, if_neg hb, if_neg ht, hc]
  cases hcopy : env.copyFails with
  | false => simp
  | true => simp [Nat.not_lt.mpr hr, Nat.not_lt.mpr hw]

theorem pathStr_cons (x : Seg) {xs : FPath} (h : xs ≠ []) :
    pathStr (x :: xs) = x ++ "/" ++ pathStr xs := by
  cases xs with
  | nil => exact absurd rfl h
  | cons y t => rfl

theorem metaPathOf_cons (x : Seg) {xs : FPath} (h : xs ≠ []) :
    metaPathOf (x :: xs) = x :: metaPathOf xs := by
  cases xs with
  | nil => exact absurd rfl h
  | cons y t =>
    simp [metaPathOf, bname, List.getLast?_cons_cons]

theorem pathStr_metaPathOf {p : FPath} (h : p ≠ []) :
    pathStr (metaPathOf p) = pathStr p ++ ".meta.json" := by
  induction p with
  | nil => exact absurd rfl h
  | cons x xs ih =>
    cases hxs : xs with
    | nil => simp [metaPathOf, bname, pathStr]
    | cons y t =>
      have hne : xs ≠ [] := by simp [hxs]
      rw [← hxs, metaPathOf_cons x hne, pathStr_cons x hne,
        pathStr_cons x (by simp [metaPathOf]), ih hne]
      simp [String.append_assoc]

/-- C9: compareFiles never rejects: it is a total boolean function.  When
both files are readable and neither raced read exceeds the deadline, the
answer is true exactly when the contents differ; when the sizes differ the
answer is true for every duration environment, without reading content;
when a file is missing, and whenever the body fails with any error, the
catch-all answers true instead of propagating. -/
theorem compareFiles_total_spec (env : IoEnv) (fs : FS) (p1 p2 : FPath) :
    (∀ c1 c2, fs p1 = some c1 → fs p2 = some c2 →
      env.readMs p1 ≤ timeoutMs → env.readMs p2 ≤ timeoutMs →
      (compareFiles env fs p1 p2 = true ↔ c1 ≠ c2))
    ∧ (∀ c1 c2, fs p1 = some c1 → fs p2 = some c2 → c1.size ≠ c2.size →
      compareFiles env fs p1 p2 = true)
    ∧ (fs p1 = none ∨ fs p2 = none → compareFiles env fs p1 p2 = true)
    ∧ (∀ e, compareFilesInner env fs p1 p2 = .error e →
      compareFiles env fs p1 p2 = true) := by
  refine ⟨?_, ?_, ?_, ?_⟩
  · intro c1 c2 h1 h2 hr1 hr2
    unfold compareFiles compareFilesInner
    rw [h1, h2]
    by_cases hs : Content.size c1 = Content.size c2
    · simp [hs, Nat.not_lt.mpr hr1, Nat.not_lt.mpr hr2]
    · have hne : c1 ≠ c2 := fun he => hs (he ▸ rfl)
      simp [hs, hne]
  · intro c1 c2 h1 h2 hs
    unfold compareFiles compareFilesInner
    rw [h1, h2]
    simp [hs]
  · intro h
    unfold compareFiles compareFilesInner
    rcases h with h | h
    · rw [h]
    · rw [h]
      cases fs p1 <;> simp
  · intro e he
    unfold compareFiles
    rw [he]

theorem compareFiles_total_spec_witness :
    ((fun p => if p = ["a"] then some (.text "x") else none : FS) ["a"] =
      some (.text "x"))
    ∧ compareFiles ⟨false, fun _ => 0, 0⟩
        (fun p => if p = ["a"] then some (.text "x") else none) ["a"] ["b"] =
        true := by
  constructor
  · decide
  · exact (compareFiles_total_spec ⟨false, fun _ => 0, 0⟩
      (fun p => if p = ["a"] then some (.text "x") else none) ["a"] ["b"]).2.2.1
      (Or.inr (by decide))

/-- C7: the deadline is the fixed 120000 ms constant; in the fallback path
of restoreFile both legs are raced against it: a read exceeding the
deadline, and likewise a write exceeding the deadline after a read within
it, each make the restoration fail with the timeout error; and in
compareFiles a raced read exceeding the deadline makes the comparison body
fail with the timeout error instead of completing the content comparison
(the public wrapper then reports the files as different, see C9). -/
theorem timeoutRace_spec :
    timeoutMs = 120000
    ∧ (∀ env fs (target bp : FPath) (c : Content),
      target ≠ [] → bp ≠ [] → fs bp = some c → env.copyFails = true →
      timeoutMs < env.readMs bp →
      restoreFile env fs target bp = .error .timeout)
    ∧ (∀ env fs (target bp : FPath) (c : Content),
      target ≠ [] → bp ≠ [] → fs bp = some c → env.copyFails = true →
      env.readMs bp ≤ timeoutMs → timeoutMs < env.writeMs →
      restoreFile env fs target bp = .error .timeout)
    ∧ (∀ env fs (p1 p2 : FPath) (c1 c2 : Content),
      fs p1 = some c1 → fs p2 = some c2 → c1.size = c2.size →
      (timeoutMs < env.readMs p1 ∨ timeoutMs < env.readMs p2) →
      compareFilesInner env fs p1 p2 = .error .timeout) := by
  refine ⟨rfl, ?_, ?_, ?_⟩
  · intro env fs target bp c ht hb hc hcopy hrt
    rw [restoreFile, if_neg hb, if_neg ht, hc, hcopy]
    simp [hrt]
  · intro env fs target bp c ht hb hc hcopy hrd hwt
    rw [restoreFile, if_neg hb, if_neg ht, hc, hcopy]
    simp [Nat.not_lt.mpr hrd, hwt]
  · intro env fs p1 p2 c1 c2 h1 h2 hs hrt
    rw [compareFilesInner, h1, h2]
    simp [hs, hrt]

theorem timeoutRace_spec_witness :
    timeoutMs < 120001
    ∧ restoreFile ⟨true, fun _ => 120001, 0⟩
        (fun p => if p = ["b"] then some (.text "x") else none) ["t"] ["b"] =
        .error .timeout
    ∧ restoreFile ⟨true, fun _ => 0, 120001⟩
        (fun p => if p = ["b"] then some (.text "x") else none) ["t"] ["b"] =
        .error .timeout
    ∧ compareFilesInner ⟨true, fun _ => 120001, 0⟩
        (fun p => if p = ["b"] then some (.text "x")
          else if p = ["d"] then some (.text "y") else none) ["b"] ["d"] =
        .error .timeout := by
  refine ⟨by decide, ?_, ?_, ?_⟩
  · exact timeoutRace_spec.2.1 ⟨true, fun _ => 120001, 0⟩ _ ["t"] ["b"]
      (.text "x") (by decide) (by decide) (by decide) rfl (by decide)
  · exact timeoutRace_spec.2.2.1 ⟨true, fun _ => 0, 120001⟩ _ ["t"] ["b"]
      (.text "x") (by decide) (by decide) (by decide) rfl (Nat.zero_le _)
      (by decide)
  · exact timeoutRace_spec.2.2.2 ⟨true, fun _ => 120001, 0⟩ _ ["b"] ["d"]
      (.text "x") (.text "y") (by decide) (by decide) (by decide)
      (Or.inl (by decide))

/-- C2: a successful createBackup persists exactly a pair of files: the raw
content copy at the timestamp-named backup path, and the sidecar at that
path plus the suffix `.meta.json` holding exactly the metadata record
(originalFile, timestamp, source, authId, relativePath, account
descriptor); nothing else changes, and the content path is returned. -/
theorem createBackup_persists_pair (cfg : Config)
    (al pa : String → Option AccountInfo) (ts iso : String) (fs : FS)
    (uri : FPath) (src : Source) (a : String) (c : Content)
    (h1 : cfg.authId = some a) (h2 : fs uri = some c) :
    ∃ fs2,
      createBackup cfg al pa ts iso fs uri src =
        some (fs2, backupPathOf cfg a src uri ts)
      ∧ fs2 (backupPathOf cfg a src uri ts) = some c
      ∧ fs2 (metaPathOf (backupPathOf cfg a src uri ts)) =
          some (.meta
            { originalFile := uri
              timestamp := iso
              source := src
              authId := a
              relativePath := getRelativePath cfg uri
              accountInfo := resolveAccountInfo al pa a })
      ∧ ∀ q, q ≠ backupPathOf cfg a src uri ts →
          q ≠ metaPathOf (backupPathOf cfg a src uri ts) → fs2 q = fs q := by
  refine ⟨_, createBackup_some cfg al pa ts iso fs uri src h1 h2, ?_, ?_, ?_⟩
  · rw [FS.write_ne _ _
      (backupPath_ne_metaPath (backupPathOf_ne_nil cfg a src uri ts))]
    exact FS.write_self _ _ _
  · exact FS.write_self _ _ _
  · intro q hq1 hq2
    rw [FS.write_ne _ _ hq2, FS.write_ne _ _ hq1]

theorem createBackup_persists_pair_witness :
    ((⟨["ws"], ["ws", "backups"], some "acct"⟩ : Config).authId = some "acct")
    ∧ ∃ fs2,
      createBackup ⟨["ws"], ["ws", "backups"], some "acct"⟩ (fun _ => none)
          (fun _ => none) "T" "I"
          (fun p => if p = ["ws", "src", "f.js"] then some (.text "A") else none)
          ["ws", "src", "f.js"] .localSrc =
        some (fs2, backupPathOf ⟨["ws"], ["ws", "backups"], some "acct"⟩
          "acct" .localSrc ["ws", "src", "f.js"] "T")
      ∧ fs2 (backupPathOf ⟨["ws"], ["ws", "backups"], some "acct"⟩ "acct"
          .localSrc ["ws", "src", "f.js"] "T") = some (.text "A")
      ∧ fs2 (metaPathOf (backupPathOf ⟨["ws"], ["ws", "backups"], some "acct"⟩
          "acct" .localSrc ["ws", "src", "f.js"] "T")) =
          some (.meta
            { originalFile := ["ws", "src", "f.js"]
              timestamp := "I"
              source := .localSrc
              authId := "acct"
              relativePath := getRelativePath
                ⟨["ws"], ["ws", "backups"], some "acct"⟩ ["ws", "src", "f.js"]
              accountInfo := resolveAccountInfo (fun _ => none) (fun _ => none)
                "acct" })
      ∧ ∀ q, q ≠ backupPathOf ⟨["ws"], ["ws", "backups"], some "acct"⟩ "acct"
            .localSrc ["ws", "src", "f.js"] "T" →
          q ≠ metaPathOf (backupPathOf ⟨["ws"], ["ws", "backups"], some "acct"⟩
            "acct" .localSrc ["ws", "src", "f.js"] "T") →
          fs2 q = (fun p => if p = ["ws", "src", "f.js"] then
            some (.text "A") else none : FS) q :=
  ⟨rfl, createBackup_persists_pair _ _ _ "T" "I" _ _ .localSrc "acct"
    (.text "A") rfl (by decide)⟩

/-- C5: the sidecar path is the content path with `.meta.json` appended, so
the content path string is a prefix of the sidecar path string; a
successful createBackup establishes the sidecar under exactly that name;
getOriginalFilePath then recovers the original file from it, and its answer
depends on no location other than that sidecar path (writes anywhere else
leave it unchanged). -/
theorem sidecar_prefix_invariant (cfg : Config)
    (al pa : String → Option AccountInfo) (ts iso : String) (fs : FS)
    (uri : FPath) (src : Source) (a : String) (c : Content)
    (h1 : cfg.authId = some a) (h2 : fs uri = some c) :
    pathStr (metaPathOf (backupPathOf cfg a src uri ts)) =
      pathStr (backupPathOf cfg a src uri ts) ++ ".meta.json"
    ∧ (∃ fs2,
      createBackup cfg al pa ts iso fs uri src =
        some (fs2, backupPathOf cfg a src uri ts)
      ∧ fs2 (metaPathOf (backupPathOf cfg a src uri ts)) =
          some (.meta (backupMetadata cfg al pa a src uri iso))
      ∧ getOriginalFilePath cfg fs2 (backupPathOf cfg a src uri ts) =
          some uri)
    ∧ (∀ (g : FS) (q : FPath) (c2 : Content) (bp2 : FPath),
      q ≠ metaPathOf bp2 →
      getOriginalFilePath cfg (g.write q c2) bp2 =
        getOriginalFilePath cfg g bp2) := by
  refine ⟨pathStr_metaPathOf (backupPathOf_ne_nil cfg a src uri ts),
    ⟨_, createBackup_some cfg al pa ts iso fs uri src h1 h2, ?_, ?_⟩, ?_⟩
  · exact FS.write_self _ _ _
  · rw [getOriginalFilePath, FS.write_self]
    rfl
  · intro g q c2 bp2 hq
    rw [getOriginalFilePath, getOriginalFilePath, FS.write_ne _ _ (Ne.symm hq)]

theorem sidecar_prefix_invariant_witness :
    ((⟨["ws"], ["ws", "backups"], some "acct"⟩ : Config).authId = some "acct")
    ∧ pathStr (metaPathOf (backupPathOf ⟨["ws"], ["ws", "backups"], some "acct"⟩
        "acct" .accountSrc ["ws", "src", "f.js"] "T")) =
      pathStr (backupPathOf ⟨["ws"], ["ws", "backups"], some "acct"⟩ "acct"
        .accountSrc ["ws", "src", "f.js"] "T") ++ ".meta.json" := by
  refine ⟨rfl, ?_⟩
  exact (sidecar_prefix_invariant ⟨["ws"], ["ws", "backups"], some "acct"⟩
    (fun _ => none) (fun _ => none) "T" "I"
    (fun p => if p = ["ws", "src", "f.js"] then some (.text "A") else none)
    ["ws", "src", "f.js"] .accountSrc "acct" (.text "A") rfl (by decide)).1

/-- C1: backup and restore round-trip.  For a readable file at uri, a
successful createBackup returns a backup path from which restoreFile,
run before the file is modified again, terminates successfully and leaves
the file at uri with exactly the content it had when the backup was taken
(any duration environment within the deadline, over both the direct-copy
and the fallback path). -/
theorem backup_restore_roundtrip (cfg : Config)
    (al pa : String → Option AccountInfo) (ts iso : String) (fs : FS)
    (src : Source) (a : String) (c : Content) (rel : FPath) (env : IoEnv)
    (h1 : cfg.authId = some a)
    (h2 : fs (cfg.workspaceRoot ++ rel) = some c)
    (hr : rel ≠ [])
    (he1 : ∀ p, env.readMs p ≤ timeoutMs) (he2 : env.writeMs ≤ timeoutMs) :
    ∃ fs1,
      createBackup cfg al pa ts iso fs (cfg.workspaceRoot ++ rel) src =
        some (fs1, backupPathOf cfg a src (cfg.workspaceRoot ++ rel) ts)
      ∧ restoreFile env fs1 (cfg.workspaceRoot ++ rel)
          (backupPathOf cfg a src (cfg.workspaceRoot ++ rel) ts) =
          .ok (fs1.write (cfg.workspaceRoot ++ rel) c)
      ∧ (fs1.write (cfg.workspaceRoot ++ rel) c) (cfg.workspaceRoot ++ rel) =
          fs (cfg.workspaceRoot ++ rel) := by
  refine ⟨_, createBackup_some cfg al pa ts iso fs _ src h1 h2, ?_, ?_⟩
  · refine restoreFile_ok env _ (by simp [hr])
      (backupPathOf_ne_nil cfg a src _ ts) ?_ (he1 _) he2
    rw [FS.write_ne _ _
      (backupPath_ne_metaPath (backupPathOf_ne_nil cfg a src _ ts))]
    exact FS.write_self _ _ _
  · rw [FS.write_self, h2]

theorem backup_restore_roundtrip_witness :
    ((⟨["ws"], ["ws", "backups"], some "acct"⟩ : Config).authId = some "acct")
    ∧ (["src", "f.js"] : FPath) ≠ []
    ∧ ∃ fs1,
      createBackup ⟨["ws"], ["ws", "backups"], some "acct"⟩ (fun _ => none)
          (fun _ => none) "T" "I"
          (fun p => if p = ["ws", "src", "f.js"] then some (.text "A") else none)
          ((["ws"] : FPath) ++ ["src", "f.js"]) .localSrc =
        some (fs1, backupPathOf ⟨["ws"], ["ws", "backups"], some "acct"⟩
          "acct" .localSrc ((["ws"] : FPath) ++ ["src", "f.js"]) "T")
      ∧ restoreFile ⟨false, fun _ => 0, 0⟩ fs1
          ((["ws"] : FPath) ++ ["src", "f.js"])
          (backupPathOf ⟨["ws"], ["ws", "backups"], some "acct"⟩ "acct"
            .localSrc ((["ws"] : FPath) ++ ["src", "f.js"]) "T") =
          .ok (fs1.write ((["ws"] : FPath) ++ ["src", "f.js"]) (.text "A"))
      ∧ (fs1.write ((["ws"] : FPath) ++ ["src", "f.js"]) (.text "A"))
          ((["ws"] : FPath) ++ ["src", "f.js"]) =
          (fun p => if p = ["ws", "src", "f.js"] then some (.text "A")
            else none : FS) ((["ws"] : FPath) ++ ["src", "f.js"]) :=
  ⟨rfl, by decide,
    backup_restore_roundtrip ⟨["ws"], ["ws", "backups"], some "acct"⟩
      (fun _ => none) (fun _ => none) "T" "I" _ .localSrc "acct" (.text "A")
      ["src", "f.js"] ⟨false, fun _ => 0, 0⟩ rfl (by decide) (by decide)
      (fun _ => Nat.zero_le _) (Nat.zero_le _)⟩

theorem containsSeq_iff {α : Type} [DecidableEq α] (l pat : List α) :
    containsSeq l pat = true ↔ pat <:+: l := by
  rw [containsSeq, List.any_eq_true]
  constructor
  · rintro ⟨t, ht, hp⟩
    exact List.infix_iff_prefix_suffix.mpr
      ⟨t, List.isPrefixOf_iff_prefix.mp hp, (List.mem_tails t l).mp ht⟩
  · intro h
    obtain ⟨t, hp, hs⟩ := List.infix_iff_prefix_suffix.mp h
    exact ⟨t, (List.mem_tails t l).mpr hs, List.isPrefixOf_iff_prefix.mpr hp⟩

theorem containsSeq_of_append {α : Type} [DecidableEq α] {l a b : List α}
    (h : containsSeq l (a ++ b) = true) : containsSeq l b = true := by
  rw [containsSeq_iff] at h ⊢
  exact ((List.suffix_append a b).isInfix).trans h

/-- C10 (amended): uploadFile and importFile are total on command results;
whenever the slash-normalized path relative to the project root does not
contain the substring SuiteScripts, convertToSuiteCloudPath returns null
and both return success false with the invalid-path error, without invoking
the external command. -/
theorem scm_invalid_path_no_command (root uri : String) (cli : String → CmdR)
    (h : strContains (toSlash (relativeStr root uri)) "SuiteScripts" = false) :
    scmUploadFile (some root) cli uri =
      ({ success := false, output := none,
         error := some "Invalid file path: Not a SuiteScripts file" }, false)
    ∧ scmImportFile (some root) cli uri =
      ({ success := false, output := none,
         error := some "Invalid file path: Not a SuiteScripts file" }, false) := by
  have hsplit : ("FileCabinet/SuiteScripts").data =
      ("FileCabinet/").data ++ ("SuiteScripts").data := by decide
  have hfc : strContains (toSlash (relativeStr root uri))
      "FileCabinet/SuiteScripts" = false := by
    rw [strContains, hsplit]
    cases hc : containsSeq (toSlash (relativeStr root uri)).data
      (("FileCabinet/").data ++ ("SuiteScripts").data) with
    | false => rfl
    | true =>
      rw [strContains] at h
      rw [containsSeq_of_append hc] at h
      cases h
  rw [scmUploadFile, scmImportFile, convertToSuiteCloudPath]
  rw [hfc, h]
  simp

theorem scm_invalid_path_no_command_witness :
    strContains (toSlash (relativeStr "proj" "proj/other/file.js"))
      "SuiteScripts" = false
    ∧ scmUploadFile (some "proj") (fun _ => .ok "") "proj/other/file.js" =
      ({ success := false, output := none,
         error := some "Invalid file path: Not a SuiteScripts file" }, false) :=
  ⟨by decide,
    (scm_invalid_path_no_command "proj" "proj/other/file.js" (fun _ => .ok "")
      (by decide)).1⟩

/-- C10 counterexample: the fsPath proj/MySuiteScriptsFolder/x.js has no
path segment equal to SuiteScripts, yet convertToSuiteCloudPath does not
return null (the code tests substring containment, not segments), and
uploadFile invokes the external command instead of returning the
invalid-path error. -/
theorem scm_segment_claim_counterexample :
    ("SuiteScripts" ∉ splitOnStr "proj/MySuiteScriptsFolder/x.js" "/")
    ∧ convertToSuiteCloudPath (some "proj") "proj/MySuiteScriptsFolder/x.js" =
        some "SuiteScripts/Folder/x.js"
    ∧ (scmUploadFile (some "proj") (fun _ => .ok "")
        "proj/MySuiteScriptsFolder/x.js").2 = true
    ∧ (scmUploadFile (some "proj") (fun _ => .ok "")
        "proj/MySuiteScriptsFolder/x.js").1.error ≠
        some "Invalid file path: Not a SuiteScripts file" := by
  refine ⟨by decide, by decide, by decide, by decide⟩

theorem isPrefixOf_append_self (l r : List Char) :
    l.isPrefixOf (l ++ r) = true :=
  List.isPrefixOf_iff_prefix.mpr (List.prefix_append l r)

theorem reCapture_exact (pat cap : List Char) (excl : Char → Bool)
    (hpat : pat ≠ []) (hcap : cap ≠ []) (hexcl : ∀ c ∈ cap, excl c = false) :
    reCapture pat excl (pat ++ cap) = some cap := by
  cases pat with
  | nil => exact absurd rfl hpat
  | cons p pt =>
    show reCapture (p :: pt) excl (p :: (pt ++ cap)) = some cap
    rw [reCapture]
    rw [show p :: (pt ++ cap) = (p :: pt) ++ cap from rfl]
    rw [isPrefixOf_append_self]
    simp only [if_true]
    rw [show ((p :: pt) ++ cap).drop (p :: pt).length = cap from
      List.drop_left _ _]
    rw [List.takeWhile_eq_self_iff.mpr (fun c hc => by simp [hexcl c hc])]
    simp [List.isEmpty_iff, hcap]

theorem reCapture_sound {pat : List Char} {excl : Char → Bool}
    {l cap : List Char} (h : reCapture pat excl l = some cap) :
    cap ≠ [] ∧ ∀ c ∈ cap, excl c = false := by
  induction l with
  | nil => simp [reCapture] at h
  | cons c t ih =>
    rw [reCapture] at h
    by_cases hp : pat.isPrefixOf (c :: t) = true
    · rw [if_pos hp] at h
      by_cases he : (((c :: t).drop pat.length).takeWhile
          (fun ch => !(excl ch))).isEmpty = true
      · rw [if_pos he] at h
        exact ih h
      · rw [if_neg he] at h
        have hc := Option.some.inj h
        subst hc
        refine ⟨by simpa [List.isEmpty_iff] using he, fun c2 hc2 => ?_⟩
        have := List.mem_takeWhile_imp hc2
        simpa using this
    · rw [if_neg hp] at h
      exact ih h

theorem detect_eq_firstIdCapture (out : String) :
    detectAuthIdFromStdout out = firstIdCapture out := by
  rw [detectAuthIdFromStdout, firstIdCapture]
  by_cases ho : out = ""
  · subst ho
    rw [if_pos rfl]
    rfl
  · rw [if_neg ho]
    cases hc : idCapture out.data with
    | none => simp [firstIdMatchStr, hc]
    | some cap =>
      have hc2 : reCapture ['I', 'D', ':', ' '] (fun c => c.isWhitespace)
          out.data = some cap := hc
      obtain ⟨h1, h2⟩ := reCapture_sound hc2
      simp only [firstIdMatchStr, hc2, idCapture, Option.map_some,
        Option.map_some']
      rw [reCapture_exact _ _ _ (by decide) h1 h2]

/-- C8: when neither project.json nor the settings configure an authId, the
initialization sets the authId to the first capture of the pattern
`ID: (\S+)` in the stdout of the manageauth invocation; and the account
name/id/url metadata are extracted by the line-oriented regex matches of
fetchAccountInfo, here shown on a stdout block of an ID line, an account
name line and an account URL line. -/
theorem authid_regex_detection (projectAuth settingsAuth : Option String)
    (w : CliWorld) (out : String) (id n u : String)
    (hp : normOpt projectAuth = none) (hs : normOpt settingsAuth = none)
    (hw : w.manageauthList = some out)
    (hid1 : id.data ≠ []) (hid2 : ∀ c ∈ id.data, c.isWhitespace = false)
    (hn1 : n.data ≠ []) (hn2 : ∀ c ∈ n.data, (decide (c = '\n')) = false)
    (hu1 : u.data ≠ []) (hu2 : ∀ c ∈ u.data, (decide (c = '\n')) = false)
    (hnId : idCapture ("Account name: " ++ n).data = none)
    (huId : idCapture ("Account URL: " ++ u).data = none)
    (hnAcctId : reCapture "Account ID: ".data (fun c => c = '\n')
      ("Account name: " ++ n).data = none)
    (hnAcctUrl : reCapture "Account URL: ".data (fun c => c = '\n')
      ("Account name: " ++ n).data = none)
    (huAcctName : reCapture "Account name: ".data (fun c => c = '\n')
      ("Account URL: " ++ u).data = none)
    (huAcctId : reCapture "Account ID: ".data (fun c => c = '\n')
      ("Account URL: " ++ u).data = none) :
    initializeAuthId projectAuth settingsAuth w = firstIdCapture out
    ∧ parseManageauthAccounts
        ["ID: " ++ id, "Account name: " ++ n, "Account URL: " ++ u] [] =
      [(id, { name := jsTrim n, id := "", url := jsTrim u })] := by
  have hidne : ¬(id = "") := fun he => hid1 (by rw [he])
  constructor
  · simp only [initializeAuthId, hp, hs, hw]
    exact detect_eq_firstIdCapture out
  · have hcap : idCapture ("ID: " ++ id).data = some id.data := by
      simp only [idCapture, String.data_append]
      exact reCapture_exact _ _ _ (by decide) hid1 hid2
    have hname : reCapture "Account name: ".data (fun c => c = '\n')
        ("Account name: " ++ n).data = some n.data := by
      rw [String.data_append]
      exact reCapture_exact _ _ _ (by decide) hn1 hn2
    have hurl : reCapture "Account URL: ".data (fun c => c = '\n')
        ("Account URL: " ++ u).data = some u.data := by
      rw [String.data_append]
      exact reCapture_exact _ _ _ (by decide) hu1 hu2
    have l1 : acctLineStep ⟨"", []⟩ ("ID: " ++ id) = ⟨id, []⟩ := by
      simp only [acctLineStep]
      rw [hcap]
    have l2 : acctLineStep ⟨id, []⟩ ("Account name: " ++ n) =
        ⟨id, [(id, ⟨jsTrim n, "", ""⟩)]⟩ := by
      simp only [acctLineStep]
      rw [hnId, if_neg hidne]
      simp only [hname, hnAcctId, hnAcctUrl]
      simp [getAcct, setAcct]
    have l3 : acctLineStep ⟨id, [(id, ⟨jsTrim n, "", ""⟩)]⟩
        ("Account URL: " ++ u) = ⟨id, [(id, ⟨jsTrim n, "", jsTrim u⟩)]⟩ := by
      simp only [acctLineStep]
      rw [huId, if_neg hidne]
      simp only [hurl, huAcctName, huAcctId]
      simp [getAcct, setAcct]
    rw [parseManageauthAccounts]
    simp only [List.foldl]
    rw [l1, l2, l3]

theorem authid_regex_detection_witness :
    normOpt (none : Option String) = none
    ∧ initializeAuthId none none ⟨some "ID: tok1 more"⟩ =
        firstIdCapture "ID: tok1 more"
    ∧ parseManageauthAccounts
        ["ID: " ++ "acct1", "Account name: " ++ "My Co",
          "Account URL: " ++ "https://x.example"] [] =
      [("acct1",
        { name := jsTrim "My Co"
          id := ""
          url := jsTrim "https://x.example" })] := by
  have h := authid_regex_detection none none ⟨some "ID: tok1 more"⟩
    "ID: tok1 more" "acct1" "My Co" "https://x.example" rfl rfl rfl
    (by decide) (by decide) (by decide) (by decide) (by decide) (by decide)
    (by decide) (by decide) (by decide) (by decide) (by decide) (by decide)
  exact ⟨rfl, h.1, h.2⟩


/-- C3: in the uploadFile command flow, once the pre-operation local backup
exists, every error that propagates out of the flow triggers the emergency
restore from that backup, so after a failed operation the file holds
exactly its pre-operation content. -/
theorem uploadFlow_emergency_restore (P : FlowParams) (fs0 : FS)
    (rel : FPath) (a : String) (c : Content)
    (h1 : P.cfg.authId = some a)
    (h2 : fs0 (P.cfg.workspaceRoot ++ rel) = some c)
    (hr : rel ≠ [])
    (he1 : ∀ p, P.env.readMs p ≤ timeoutMs)
    (he2 : P.env.writeMs ≤ timeoutMs) :
    (runUploadFlow P fs0 (P.cfg.workspaceRoot ++ rel)).result = .thrown →
    (runUploadFlow P fs0 (P.cfg.workspaceRoot ++ rel)).fs
      (P.cfg.workspaceRoot ++ rel) = some c := by
  have huri_ne : ∀ src ts, P.cfg.workspaceRoot ++ rel ≠
      backupPathOf P.cfg a src (P.cfg.workspaceRoot ++ rel) ts :=
    fun src ts => uri_ne_backupPath P.cfg a src rel ts hr
  have huri_ne_mp : ∀ src ts, P.cfg.workspaceRoot ++ rel ≠
      metaPathOf (backupPathOf P.cfg a src (P.cfg.workspaceRoot ++ rel) ts) :=
    fun src ts => uri_ne_metaPath P.cfg a src rel ts hr
  have hbpne : ∀ src ts,
      backupPathOf P.cfg a src (P.cfg.workspaceRoot ++ rel) ts ≠ [] :=
    fun src ts => backupPathOf_ne_nil P.cfg a src _ ts
  have hurine : P.cfg.workspaceRoot ++ rel ≠ [] := by simp [hr]
  rw [runUploadFlow,
    createBackup_some P.cfg P.acctLookup P.projectAcct P.tsL P.isoL fs0 _
      .localSrc h1 h2]
  set uri := P.cfg.workspaceRoot ++ rel with huri
  set bp := backupPathOf P.cfg a .localSrc uri P.tsL with hbp
  set fs1 := (fs0.write bp c).write (metaPathOf bp)
    (.meta (backupMetadata P.cfg P.acctLookup P.projectAcct a .localSrc uri
      P.isoL)) with hfs1
  have hbpne2 : bp ≠ [] := by rw [hbp]; exact hbpne _ _
  have hem : ∀ g : FS, g bp = some c →
      emergencyRestore P.env g uri bp = g.write uri c := by
    intro g hg
    rw [emergencyRestore, restoreFile_ok P.env g hurine hbpne2 hg (he1 _) he2]
  have hfs1bp : fs1 bp = some c := by
    rw [hfs1, FS.write_ne _ _ (backupPath_ne_metaPath hbpne2), FS.write_self]
  cases P.importResult with
  | fail msg =>
    cases hnf : importNotFoundErr msg with
    | true =>
      cases hup : P.uploadAt 0 with
      | ok s => simp [hnf, hup]
      | fail um => simp [hnf, hup, hem fs1 hfs1bp, FS.write_self]
    | false =>
      cases hae : importAuthErr msg with
      | true =>
        cases P.importAuthRunAuth <;> cases hst : P.setupThrows <;>
          cases hrt : P.refreshThrows <;> simp [hnf, hae, hst, hrt]
      | false => simp [hnf, hae, hem fs1 hfs1bp, FS.write_self]
  | ok s =>
    have h2b : (fs1.write uri P.remote) uri = some P.remote :=
      FS.write_self _ _ _
    simp only []
    rw [createBackup_some P.cfg P.acctLookup P.projectAcct P.tsA P.isoA
      (fs1.write uri P.remote) _ .accountSrc h1 h2b]
    set abp := backupPathOf P.cfg a .accountSrc uri P.tsA with habp
    set fs3 := (((fs1.write uri P.remote).write abp P.remote).write
      (metaPathOf abp)
      (.meta (backupMetadata P.cfg P.acctLookup P.projectAcct a .accountSrc uri
        P.isoA))) with hfs3
    have hfs3bp : fs3 bp = some c := by
      rw [hfs3, hbp, habp,
        FS.write_ne _ _ (backupPath_ne_metaPath_of_src (by decide)),
        FS.write_ne _ _ (backupPath_ne_of_src (by decide)),
        FS.write_ne _ _ (Ne.symm (huri_ne _ _)), ← hbp, hfs1bp]
    have hfs4bp : (fs3.write uri c) bp = some c := by
      rw [FS.write_ne _ _ (by rw [hbp]; exact Ne.symm (huri_ne _ _)), hfs3bp]
    simp only [hfs3bp, restoreFile_ok P.env fs3 hurine hbpne2 hfs3bp (he1 _)
      he2, reduceCtorEq, if_false, Bool.false_eq_true]
    cases hup : P.uploadAt 0 with
    | ok s2 => simp [hup]
    | fail um =>
      cases hua : uploadAuthErr um with
      | true =>
        cases P.uploadAuthRunAuth <;> cases hst : P.setupThrows <;>
          cases hrt : P.refreshThrows <;> simp [hup, hua, hst, hrt]
      | false =>
        simp [hup, hua, hem (fs3.write uri c) hfs4bp, FS.write_self]

theorem uploadFlow_emergency_restore_witness :
    (⟨⟨["ws"], ["ws", "backups"], some "acct"⟩, fun _ => none, fun _ => none,
      "T1", "I1", "T2", "I2", .fail "boom", .text "R", fun _ => .ok "",
      false, false, false, false, ⟨false, fun _ => 0, 0⟩⟩ :
        FlowParams).cfg.authId = some "acct"
    ∧ (runUploadFlow
        ⟨⟨["ws"], ["ws", "backups"], some "acct"⟩, fun _ => none,
          fun _ => none, "T1", "I1", "T2", "I2", .fail "boom", .text "R",
          fun _ => .ok "", false, false, false, false,
          ⟨false, fun _ => 0, 0⟩⟩
        (fun p => if p = ["ws", "src", "f.js"] then some (.text "A") else none)
        ((["ws"] : FPath) ++ ["src", "f.js"])).result = .thrown
    ∧ (runUploadFlow
        ⟨⟨["ws"], ["ws", "backups"], some "acct"⟩, fun _ => none,
          fun _ => none, "T1", "I1", "T2", "I2", .fail "boom", .text "R",
          fun _ => .ok "", false, false, false, false,
          ⟨false, fun _ => 0, 0⟩⟩
        (fun p => if p = ["ws", "src", "f.js"] then some (.text "A") else none)
        ((["ws"] : FPath) ++ ["src", "f.js"])).fs
        ((["ws"] : FPath) ++ ["src", "f.js"]) = some (.text "A") := by
  refine ⟨rfl, by decide, ?_⟩
  exact uploadFlow_emergency_restore
    ⟨⟨["ws"], ["ws", "backups"], some "acct"⟩, fun _ => none, fun _ => none,
      "T1", "I1", "T2", "I2", .fail "boom", .text "R", fun _ => .ok "",
      false, false, false, false, ⟨false, fun _ => 0, 0⟩⟩
    (fun p => if p = ["ws", "src", "f.js"] then some (.text "A") else none)
    ["src", "f.js"] "acct" (.text "A") rfl (by decide) (by decide)
    (fun _ => Nat.zero_le _) (Nat.zero_le _) (by decide)

/-- C6 (amended): in the uploadFile command flow the external import is
never re-attempted, and the external upload is invoked at most twice; a
second invocation happens only as the single retry after the first upload
failed with an authentication-matching error and the user elected to run
authentication setup (and setup and refresh both succeeded). -/
theorem uploadFlow_retry_policy (P : FlowParams) (fs0 : FS) (uri : FPath) :
    (runUploadFlow P fs0 uri).importCalls ≤ 1
    ∧ (runUploadFlow P fs0 uri).uploadCalls ≤ 2
    ∧ ((runUploadFlow P fs0 uri).uploadCalls = 2 →
      P.uploadAuthRunAuth = true ∧ P.setupThrows = false ∧
      P.refreshThrows = false ∧
      ∃ m, P.uploadAt 0 = .fail m ∧ uploadAuthErr m = true) := by
  rw [runUploadFlow]
  cases hcb : createBackup P.cfg P.acctLookup P.projectAcct P.tsL P.isoL fs0
      uri .localSrc with
  | none => simp [hcb]
  | some pr =>
    obtain ⟨fs1, bp⟩ := pr
    cases P.importResult with
    | fail msg =>
      cases hnf : importNotFoundErr msg with
      | true => cases hup : P.uploadAt 0 <;> simp [hcb, hnf, hup]
      | false =>
        cases hae : importAuthErr msg with
        | true =>
          cases P.importAuthRunAuth <;> cases hst : P.setupThrows <;>
            cases hrt : P.refreshThrows <;> simp [hcb, hnf, hae, hst, hrt]
        | false => simp [hcb, hnf, hae]
    | ok s =>
      cases hcb2 : createBackup P.cfg P.acctLookup P.projectAcct P.tsA P.isoA
          (fs1.write uri P.remote) uri .accountSrc with
      | none => simp [hcb, hcb2]
      | some pr2 =>
        obtain ⟨fs3, abp⟩ := pr2
        by_cases h3 : fs3 bp = none
        · simp [hcb, hcb2, h3]
        · cases hre : restoreFile P.env fs3 uri bp with
          | error e => simp [hcb, hcb2, h3, hre]
          | ok fs4 =>
            cases hup : P.uploadAt 0 with
            | ok s2 => simp [hcb, hcb2, h3, hre, hup]
            | fail um =>
              cases hua : uploadAuthErr um with
              | false => simp [hcb, hcb2, h3, hre, hup, hua]
              | true =>
                cases hra : P.uploadAuthRunAuth with
                | false => simp [hcb, hcb2, h3, hre, hup, hua, hra]
                | true =>
                  cases hst : P.setupThrows <;> cases hrt : P.refreshThrows <;>
                    simp [hcb, hcb2, h3, hre, hup, hua, hra, hst, hrt]

/-- C6 counterexample: a run of the uploadFile command flow in which the
upload fails with an authentication error and the user elects to run
authentication setup invokes the external upload twice, so the failed
external operation is re-attempted, contradicting the claim that there is
no retry. -/
theorem uploadFlow_retry_counterexample :
    (runUploadFlow
      ⟨⟨["ws"], ["ws", "backups"], some "acct"⟩, fun _ => none, fun _ => none,
        "T1", "I1", "T2", "I2", .ok "", .text "R",
        fun k => if k = 0 then .fail "auth" else .ok "", false, true, false,
        false, ⟨false, fun _ => 0, 0⟩⟩
      (fun p => if p = ["ws", "src", "f.js"] then some (.text "A") else none)
      ["ws", "src", "f.js"]).uploadCalls = 2
    ∧ ¬ ((runUploadFlow
      ⟨⟨["ws"], ["ws", "backups"], some "acct"⟩, fun _ => none, fun _ => none,
        "T1", "I1", "T2", "I2", .ok "", .text "R",
        fun k => if k = 0 then .fail "auth" else .ok "", false, true, false,
        false, ⟨false, fun _ => 0, 0⟩⟩
      (fun p => if p = ["ws", "src", "f.js"] then some (.text "A") else none)
      ["ws", "src", "f.js"]).uploadCalls ≤ 1) := by
  refine ⟨by decide, by decide⟩

theorem uploadFlow_retry_policy_witness :
    (runUploadFlow
      ⟨⟨["ws"], ["ws", "backups"], some "acct"⟩, fun _ => none, fun _ => none,
        "T1", "I1", "T2", "I2", .ok "", .text "R",
        fun k => if k = 0 then .fail "auth" else .ok "", false, true, false,
        false, ⟨false, fun _ => 0, 0⟩⟩
      (fun p => if p = ["ws", "src", "f.js"] then some (.text "A") else none)
      ["ws", "src", "f.js"]).uploadCalls = 2
    ∧ ∃ m, (fun k => if k = 0 then CmdR.fail "auth" else CmdR.ok "") 0 =
        CmdR.fail m ∧ uploadAuthErr m = true := by
  refine ⟨by decide, ?_⟩
  exact (uploadFlow_retry_policy
    ⟨⟨["ws"], ["ws", "backups"], some "acct"⟩, fun _ => none, fun _ => none,
      "T1", "I1", "T2", "I2", .ok "", .text "R",
      fun k => if k = 0 then .fail "auth" else .ok "", false, true, false,
      false, ⟨false, fun _ => 0, 0⟩⟩
    (fun p => if p = ["ws", "src", "f.js"] then some (.text "A") else none)
    ["ws", "src", "f.js"]).2.2 (by decide) |>.2.2.2

theorem lookupB_pushRec (m : BMap) (k q : FPath) (r : BackupRec) :
    lookupB (pushRec m k r) q =
      if k = q then some ((lookupB m k).getD [] ++ [r]) else lookupB m q := by
  induction m with
  | nil =>
    by_cases hkq : k = q <;> simp [pushRec, lookupB, hkq]
  | cons hd t ih =>
    obtain ⟨k', v⟩ := hd
    by_cases hk : k' = k
    · subst hk
      by_cases hkq : k' = q <;> simp [pushRec, lookupB, hkq]
    · by_cases hq : k' = q
      · subst hq
        have hk2 : ¬(k = k') := fun h => hk h.symm
        simp [pushRec, lookupB, hk, hk2]
      · simp [pushRec, lookupB, hk, hq, ih]

theorem groupGet_nil (q : FPath) : groupGet q [] = [] := rfl

theorem groupGet_cons (q k : FPath) (r : BackupRec)
    (t : List (FPath × BackupRec)) :
    groupGet q ((k, r) :: t) =
      if k = q then r :: groupGet q t else groupGet q t := by
  by_cases hkq : k = q <;> simp [groupGet, hkq]

theorem lookupB_pushAll (l : List (FPath × BackupRec)) :
    ∀ (acc : BMap) (q : FPath),
    lookupB (pushAll acc l) q =
      match lookupB acc q with
      | some rs => some (rs ++ groupGet q l)
      | none =>
        if groupGet q l = [] then none else some (groupGet q l) := by
  induction l with
  | nil =>
    intro acc q
    cases hacc : lookupB acc q <;> simp [pushAll, groupGet, hacc]
  | cons hd t ih =>
    intro acc q
    obtain ⟨k, r⟩ := hd
    have hstep : pushAll acc ((k, r) :: t) = pushAll (pushRec acc k r) t := rfl
    rw [hstep, ih, lookupB_pushRec, groupGet_cons]
    by_cases hkq : k = q
    · subst hkq
      cases hacc : lookupB acc k <;> simp
    · cases hacc : lookupB acc q <;> simp [hkq]

theorem pushAll_append (acc : BMap) (l1 l2 : List (FPath × BackupRec)) :
    pushAll acc (l1 ++ l2) = pushAll (pushAll acc l1) l2 :=
  List.foldl_append _ _ _ _

theorem findBackupFiles_eq_pushAll (cfg : Config) (src : Source) :
    ∀ (dirPath : FPath) (all rem : List FsTree) (acc : BMap),
    findBackupFiles cfg src dirPath all rem acc =
      pushAll acc (collectBackupFiles cfg src dirPath all rem) := by
  intro dirPath all rem acc
  induction dirPath, all, rem, acc using findBackupFiles.induct cfg src with
  | case1 dirPath all acc =>
    rw [findBackupFiles, collectBackupFiles]
    rfl
  | case2 dirPath all acc n cs rest ih1 ih2 =>
    rw [findBackupFiles, collectBackupFiles, ih2, ih1, pushAll_append]
  | case3 dirPath all acc n d rest ih =>
    simp only [dite_eq_ite] at ih
    rw [findBackupFiles, collectBackupFiles, ih, pushAll_append]
    congr 1
    by_cases hb : (strEndsWith n ".bak" && !(strEndsWith n ".meta.json")) = true
    · rw [if_pos hb, if_pos hb]
      cases ho : origPathOfEntry cfg all dirPath n <;> simp [ho, pushAll]
    · rw [if_neg hb, if_neg hb]
      rfl

theorem foldSources_eq_pushAll (cfg : Config) (authId : Seg) :
    ∀ (sources : List FsTree) (acc : BMap),
    foldSources cfg authId sources acc =
      pushAll acc (collectSources cfg authId sources) := by
  intro sources
  induction sources with
  | nil => intro acc; rfl
  | cons e rest ih =>
    intro acc
    cases e with
    | file n d => rw [foldSources, collectSources, ih]
    | dir sname cs =>
      cases hs : parseSource sname with
      | none =>
        simp only [foldSources, collectSources, hs, ih, List.nil_append]
      | some src =>
        simp only [foldSources, collectSources, hs, ih, pushAll_append,
          findBackupFiles_eq_pushAll]

theorem foldAuthDirs_eq_pushAll (cfg : Config) :
    ∀ (base : List FsTree) (acc : BMap),
    foldAuthDirs cfg base acc = pushAll acc (collectAll cfg base) := by
  intro base
  induction base with
  | nil => intro acc; rfl
  | cons e rest ih =>
    intro acc
    cases e with
    | file n d => rw [foldAuthDirs, collectAll, ih]
    | dir authId sources =>
      rw [foldAuthDirs, collectAll, ih, pushAll_append,
        foldSources_eq_pushAll]

/-- C4: listBackups rebuilds the index from scratch: its result is the pure
grouping of the recursive directory traversal (collectAll, which reads each
.bak file together with its sidecar through origPathOfEntry and
recOfEntry), with no state carried between calls; the map sends each
original-file path (from the sidecar originalFile field, or inferred from
the directory layout when the sidecar is absent) to the list of its
timestamped backup versions in traversal order. -/
theorem listBackups_rebuilds_index (cfg : Config) (base : List FsTree)
    (orig : FPath) :
    lookupB (listBackups cfg base) orig =
      if groupGet orig (collectAll cfg base) = [] then none
      else some (groupGet orig (collectAll cfg base)) := by
  rw [listBackups, foldAuthDirs_eq_pushAll, lookupB_pushAll]
  rfl
